import Mathlib

/-!
# Connection hub of the state-relay server (`backend/main.go`)

A shallow embedding of the hub of `backend/main.go`: the `Player` records, the
store `GameState.Players` (a Go `map[string]*Player`), the active set
`Hub.clients` (a Go `map[*Client]bool` used as a set), the four cases of the
`select` in `Hub.run`, the body and the deferred cleanup of `Client.readPump`,
and the creation of a session in `handleWebSocket`.

Pointers are kept: the store maps a player ID to the *address* of a `Player`,
and the `Player` objects live in a memory `mem`, so that an update through the
store is an in-place write to the object a session also points to.

Every critical section guarded by `GameState.mu` is one atomic step.

The handlers are first given as functions on the state (`register`,
`unregister`, `broadcast`, `readPumpMessage`, `readPumpExit`) and composed into
runs of events (`run`).  The loop of `Hub.run` itself, with the channel
`h.broadcast` and the tick, is the machine `Hub.run` on `HubLoop`.
-/

set_option linter.unusedVariables false

namespace CivilGame

/-! ## The program -/

/-- A `float64` field value.  The program only stores and copies these values
(it never computes with them), and JSON cannot carry NaN or an infinity, so a
finite value is represented by the rational number it denotes. -/
abbrev Float64 := ℚ

/-- `type Player struct` (main.go 21-27). -/
structure Player where
  ID : String
  X : Float64
  Y : Float64
  Velocity : Float64
  Angle : Float64
  deriving DecidableEq

/-- The address of a `Player` object (`*Player`). -/
abbrev PlayerPtr := ℕ

/-- A transport connection (`*websocket.Conn`), by identity. -/
abbrev Conn := ℕ

/-- A payload (`[]byte`). -/
abbrev Message := List ℕ

/-- `type Client struct` (main.go 36-40).  The field `game` is left out: every
client is built by `handleWebSocket` with `game: hub.game`, the one store of the
one hub.  A session is identified by its connection and its player object, both
of which `handleWebSocket` creates anew for each client. -/
structure Client where
  conn : Conn
  player : PlayerPtr
  deriving DecidableEq

/-- The state the hub loop and the read loops act on.

* `mem` : the memory holding the `Player` objects;
* `clients` : `Hub.clients`, the active set;
* `Players` : `Hub.game.Players`, the store, from player ID to player address;
* `closed` : the connections on which `Close()` has been called;
* `writes` : the log of the `WriteMessage` calls made by the hub, each with the
  connection, the payload and whether the call succeeded. -/
structure State where
  mem : PlayerPtr → Player
  clients : Finset Client
  Players : Finmap (fun _ : String => PlayerPtr)
  closed : Finset Conn
  writes : List (Conn × Message × Bool)

/-- `client.player.ID`, read through the memory. -/
def State.playerID (st : State) (client : Client) : String :=
  (st.mem client.player).ID

/-- The store entry of a key, dereferenced: the `Player` the store maps `id` to,
as a tick would serialize it under `players`. -/
def State.entry (st : State) (id : String) : Option Player :=
  (st.Players.lookup id).map st.mem

/-- The key set of the store. -/
def State.keys (st : State) : Finset String :=
  st.Players.keys

/-- The player IDs of the sessions in the active set. -/
def State.activeIDs (st : State) : Finset String :=
  st.clients.image st.playerID

/-- `newHub` (main.go 51-61): empty active set and empty store.  The memory is
a parameter: it holds the `Player` objects sessions will point to. -/
def newHub (mem : PlayerPtr → Player) : State :=
  { mem := mem, clients := ∅, Players := ∅, closed := ∅, writes := [] }

/-- `case client := <-h.register` of `Hub.run` (main.go 69-74). -/
def register (client : Client) (st : State) : State :=
  { st with
    clients := insert client st.clients
    Players := st.Players.insert (st.mem client.player).ID client.player }

/-- `case client := <-h.unregister` of `Hub.run` (main.go 76-84). -/
def unregister (client : Client) (st : State) : State :=
  if client ∈ st.clients then
    { st with
      clients := st.clients.erase client
      Players := st.Players.erase (st.mem client.player).ID
      closed := insert client.conn st.closed }
  else st

/-- One iteration of the loop of `case message := <-h.broadcast`
(main.go 88-92): the write is attempted; on failure the connection is closed
and the client deleted from the active set. -/
def broadcastWrite (message : Message) (writeOk : Client → Bool)
    (st : State) (client : Client) : State :=
  if writeOk client then
    { st with writes := st.writes ++ [(client.conn, message, true)] }
  else
    { st with
      writes := st.writes ++ [(client.conn, message, false)]
      closed := insert client.conn st.closed
      clients := st.clients.erase client }

/-- `case message := <-h.broadcast` of `Hub.run` (main.go 86-93).  `order` is
the order in which `range h.clients` produces the clients (Go leaves it
unspecified) and `writeOk` the outcome of `WriteMessage` on each of them. -/
def broadcast (message : Message) (order : List Client) (writeOk : Client → Bool)
    (st : State) : State :=
  order.foldl (broadcastWrite message writeOk) st

/-- The body of the loop of `Client.readPump` after a successful read
(main.go 132-142).  `decoded` is the result of `json.Unmarshal` into a
`Player`: `none` when it returns an error. -/
def readPumpMessage (c : Client) (decoded : Option Player) (st : State) : State :=
  match decoded with
  | none => st
  | some playerUpdate =>
    match st.Players.lookup playerUpdate.ID with
    | some p =>
      { st with
        mem := Function.update st.mem p
          { st.mem p with
            X := playerUpdate.X
            Y := playerUpdate.Y
            Velocity := playerUpdate.Velocity
            Angle := playerUpdate.Angle } }
    | none => st

/-- The deferred cleanup of `Client.readPump` (main.go 108-115). -/
def readPumpExit (c : Client) (st : State) : State :=
  { st with
    Players :=
      if (st.mem c.player).ID ∈ st.Players then st.Players.erase (st.mem c.player).ID
      else st.Players
    closed := insert c.conn st.closed }

/-- The `Player` literal of `handleWebSocket` (main.go 158-164). -/
def newPlayer (playerID : String) : Player :=
  { ID := playerID, X := 400, Y := 300, Velocity := 0, Angle := 0 }

/-- The player ID `handleWebSocket` gives a new session (main.go 153-156): the
`playerId` query parameter, or a generated ID when the parameter is empty. -/
def requestPlayerID (query generated : String) : String :=
  if query = "" then generated else query

/-- `handleWebSocket` after a successful upgrade, up to the send on
`hub.register` (main.go 153-170).  `query` is the `playerId` query parameter,
`generated` what `generatePlayerID()` would return, `conn` the upgraded
connection and `addr` the address of the new `Player` object.  Returns the new
client and the state with the new object in memory. -/
def handleWebSocket (query generated : String) (conn : Conn) (addr : PlayerPtr)
    (st : State) : Client × State :=
  ({ conn := conn, player := addr },
   { st with mem := Function.update st.mem addr (newPlayer (requestPlayerID query generated)) })

/-- The steps of the hub model: the hub handling a registration, a
deregistration or a broadcast request, a read loop handling one inbound
message, and a read loop exiting. -/
inductive Event where
  | register (client : Client)
  | unregister (client : Client)
  | broadcast (message : Message) (order : List Client) (writeOk : Client → Bool)
  | readMessage (c : Client) (decoded : Option Player)
  | readExit (c : Client)

/-- One step. -/
def step (st : State) : Event → State
  | .register client => register client st
  | .unregister client => unregister client st
  | .broadcast message order writeOk => broadcast message order writeOk st
  | .readMessage c decoded => readPumpMessage c decoded st
  | .readExit c => readPumpExit c st

/-- A sequence of steps, first event first. -/
def run (es : List Event) (st : State) : State :=
  es.foldl step st

/-- Every entry of the store is filed under the `ID` of the `Player` object it
points to (the only insertion is `Players[client.player.ID] = client.player`). -/
def State.Keyed (st : State) : Prop :=
  ∀ k q, st.Players.lookup k = some q → (st.mem q).ID = k

/-- A memory for the examples: the object at address 1 is the new player `p1`,
the one at 2 the new player `p2`, the one at 3 a second new player `p1` (a
reconnection under the same ID). -/
def mem0 : PlayerPtr → Player := fun q =>
  newPlayer (if q = 1 then "p1" else if q = 2 then "p2" else if q = 3 then "p1" else "")

/-- The session of player `p1`. -/
def s1 : Client := { conn := 1, player := 1 }

/-- The session of player `p2`. -/
def s2 : Client := { conn := 2, player := 2 }

/-- A second session with the ID `p1`. -/
def s3 : Client := { conn := 3, player := 3 }

/-- The sessions of the register events of a sequence. -/
def registered : List Event → List Client
  | [] => []
  | .register client :: es => client :: registered es
  | _ :: es => registered es

/-- Whether a step takes the session `c` out of the active set (if it is in
it): the unregister event of `c`, or a broadcast that visits `c` with a failing
write. -/
def Event.removes (c : Client) : Event → Bool
  | .unregister client => decide (client = c)
  | .broadcast _ order writeOk => decide (c ∈ order) && !writeOk c
  | _ => false

/-- Whether a step is the registration of a session whose player ID is `k`. -/
def Event.registersID (mem : PlayerPtr → Player) (k : String) : Event → Bool
  | .register client => decide ((mem client.player).ID = k)
  | _ => false

/-- Whether a step is the exit of the read loop of a session whose player ID is
`k`. -/
def Event.exitsID (mem : PlayerPtr → Player) (k : String) : Event → Bool
  | .readExit c => decide ((mem c.player).ID = k)
  | _ => false

/-- Every key left without a session is settled: whenever step `i` of the
sequence (from the state after `es.take i` to the state after
`es.take (i + 1)`) leaves the key `k` in the store while taking the last session
with the ID `k` out of the active set, one of the later steps `es.drop (i + 1)`
is the read-loop exit of a session with the ID `k` or the registration of a
session with the ID `k`. -/
def orphanKeysSettled (mem : PlayerPtr → Player) (es : List Event) : Prop :=
  ∀ i < es.length, ∀ k ∈ (run (es.take (i + 1)) (newHub mem)).keys,
    k ∈ (run (es.take i) (newHub mem)).activeIDs →
    k ∉ (run (es.take (i + 1)) (newHub mem)).activeIDs →
    ∃ e ∈ es.drop (i + 1), e.exitsID mem k = true ∨ e.registersID mem k = true

/-- Every session left without its key is settled: whenever step `i` of the
sequence deletes from the store the key of a session `c` that it leaves in the
active set, one of the later steps `es.drop (i + 1)` takes `c` out of the active
set (its unregister event, or a failed broadcast write to it) or is the
registration of a session with the ID of `c`. -/
def keylessSessionsSettled (mem : PlayerPtr → Player) (es : List Event) : Prop :=
  ∀ i < es.length, ∀ c ∈ (run (es.take (i + 1)) (newHub mem)).clients,
    (mem c.player).ID ∈ (run (es.take i) (newHub mem)).keys →
    (mem c.player).ID ∉ (run (es.take (i + 1)) (newHub mem)).keys →
    ∃ e ∈ es.drop (i + 1),
      e.removes c = true ∨ e.registersID mem (mem c.player).ID = true

/-- A Go channel of payloads: its capacity (0 for `make(chan []byte)`) and the
values it buffers. -/
structure Chan where
  cap : ℕ
  buf : List Message

/-- The hub together with the control state of the goroutine running
`Hub.run`.

* `st` : the state the handlers act on;
* `broadcast` : the channel `h.broadcast`;
* `sending` : `some state` when the goroutine is suspended in the send
  `h.broadcast <- state` of the tick case (main.go 101), `none` when it is at
  the `select`. -/
structure HubLoop where
  st : State
  broadcast : Chan
  sending : Option Message

/-- What can happen next to the running program: a case of the `select` of
`Hub.run` becomes ready, or a read loop makes a step.  For `tick`, `marshal` is
the result of `json.Marshal(h.game)`, `none` when it returns an error. -/
inductive LoopEvent where
  | register (client : Client)
  | unregister (client : Client)
  | broadcast (order : List Client) (writeOk : Client → Bool)
  | tick (marshal : Option Message)
  | readMessage (c : Client) (decoded : Option Player)
  | readExit (c : Client)

/-- `newHub` (main.go 51-61) with its channels: `broadcast` is made without a
capacity, and the goroutine starts at the `select`. -/
def newHubLoop (mem : PlayerPtr → Player) : HubLoop :=
  { st := newHub mem, broadcast := { cap := 0, buf := [] }, sending := none }

/-- One step of the program around the loop of `Hub.run` (main.go 67-104).

The read loops run in goroutines of their own and step whatever the hub
goroutine does.  The hub goroutine handles a case of the `select` only when it
is at the `select`.  The only receive from `h.broadcast` in the program is the
broadcast case of this `select`, and the only send is the tick case of the same
`select`: the receive is ready only when the channel buffers a value, and the
send completes only when the channel has room in its buffer; otherwise the
goroutine is suspended in the send, and since no other goroutine receives from
the channel, it stays suspended. -/
def Hub.run (L : HubLoop) : LoopEvent → HubLoop
  | .readMessage c decoded => { L with st := readPumpMessage c decoded L.st }
  | .readExit c => { L with st := readPumpExit c L.st }
  | .register client =>
    match L.sending with
    | some _ => L
    | none => { L with st := CivilGame.register client L.st }
  | .unregister client =>
    match L.sending with
    | some _ => L
    | none => { L with st := CivilGame.unregister client L.st }
  | .broadcast order writeOk =>
    match L.sending with
    | some _ => L
    | none =>
      match L.broadcast.buf with
      | [] => L
      | message :: rest =>
        { L with
          broadcast := { L.broadcast with buf := rest }
          st := CivilGame.broadcast message order writeOk L.st }
  | .tick marshal =>
    match L.sending with
    | some _ => L
    | none =>
      match marshal with
      | none => L
      | some state =>
        if L.broadcast.buf.length < L.broadcast.cap then
          { L with broadcast := { L.broadcast with buf := L.broadcast.buf ++ [state] } }
        else
          { L with sending := some state }

/-- A sequence of steps of the running program, first event first. -/
def Hub.runLoop (es : List LoopEvent) (L : HubLoop) : HubLoop :=
  es.foldl Hub.run L

/-! ## Field-by-field effect of the handlers -/

@[simp]
theorem register_mem (c : Client) (st : State) : (register c st).mem = st.mem := rfl

@[simp]
theorem register_clients (c : Client) (st : State) :
    (register c st).clients = insert c st.clients := rfl

@[simp]
theorem register_Players (c : Client) (st : State) :
    (register c st).Players = st.Players.insert (st.mem c.player).ID c.player := rfl

@[simp]
theorem unregister_mem (c : Client) (st : State) : (unregister c st).mem = st.mem := by
  unfold unregister; split <;> rfl

theorem unregister_of_mem {c : Client} {st : State} (h : c ∈ st.clients) :
    unregister c st =
      { st with
        clients := st.clients.erase c
        Players := st.Players.erase (st.mem c.player).ID
        closed := insert c.conn st.closed } := by
  unfold unregister; rw [if_pos h]

theorem unregister_of_not_mem {c : Client} {st : State} (h : c ∉ st.clients) :
    unregister c st = st := by
  unfold unregister; rw [if_neg h]

@[simp]
theorem broadcastWrite_mem (m : Message) (w : Client → Bool) (st : State) (c : Client) :
    (broadcastWrite m w st c).mem = st.mem := by
  unfold broadcastWrite; split <;> rfl

@[simp]
theorem broadcastWrite_Players (m : Message) (w : Client → Bool) (st : State)
    (c : Client) : (broadcastWrite m w st c).Players = st.Players := by
  unfold broadcastWrite; split <;> rfl

@[simp]
theorem broadcast_mem (m : Message) (order : List Client) (w : Client → Bool)
    (st : State) : (broadcast m order w st).mem = st.mem := by
  unfold broadcast
  induction order generalizing st with
  | nil => rfl
  | cons c cs ih => simp [List.foldl_cons, ih]

@[simp]
theorem broadcast_Players (m : Message) (order : List Client) (w : Client → Bool)
    (st : State) : (broadcast m order w st).Players = st.Players := by
  unfold broadcast
  induction order generalizing st with
  | nil => rfl
  | cons c cs ih => simp [List.foldl_cons, ih]

/-- The active set after a broadcast: the clients that were not visited with a
failing write. -/
theorem broadcast_clients (m : Message) (order : List Client) (w : Client → Bool)
    (st : State) :
    (broadcast m order w st).clients =
      st.clients.filter (fun c => ¬ (c ∈ order ∧ w c = false)) := by
  unfold broadcast
  induction order generalizing st with
  | nil => simp
  | cons c cs ih =>
    rw [List.foldl_cons, ih]
    ext x
    by_cases hw : w c = true
    · simp only [broadcastWrite, hw, if_true, Finset.mem_filter, List.mem_cons]
      constructor
      · rintro ⟨hx, hn⟩
        refine ⟨hx, ?_⟩
        rintro ⟨h1 | h1, h2⟩
        · rw [h1, hw] at h2; exact Bool.noConfusion h2
        · exact hn ⟨h1, h2⟩
      · rintro ⟨hx, hn⟩
        exact ⟨hx, fun h => hn ⟨Or.inr h.1, h.2⟩⟩
    · have hw' : w c = false := by simpa using hw
      simp only [broadcastWrite, hw', Bool.false_eq_true, if_false, Finset.mem_filter,
        Finset.mem_erase, List.mem_cons]
      constructor
      · rintro ⟨⟨hne, hx⟩, hn⟩
        refine ⟨hx, ?_⟩
        rintro ⟨h1 | h1, h2⟩
        · exact hne h1
        · exact hn ⟨h1, h2⟩
      · rintro ⟨hx, hn⟩
        refine ⟨⟨?_, hx⟩, fun h => hn ⟨Or.inr h.1, h.2⟩⟩
        intro h
        exact hn ⟨Or.inl h, by rw [h]; exact hw'⟩

@[simp]
theorem readPumpMessage_clients (c : Client) (d : Option Player) (st : State) :
    (readPumpMessage c d st).clients = st.clients := by
  unfold readPumpMessage
  split
  · rfl
  · split <;> rfl

@[simp]
theorem readPumpMessage_Players (c : Client) (d : Option Player) (st : State) :
    (readPumpMessage c d st).Players = st.Players := by
  unfold readPumpMessage
  split
  · rfl
  · split <;> rfl

/-- No handler ever writes the `ID` field of a `Player` object. -/
theorem readPumpMessage_mem_ID (c : Client) (d : Option Player) (st : State) (q : PlayerPtr) :
    ((readPumpMessage c d st).mem q).ID = (st.mem q).ID := by
  unfold readPumpMessage
  split
  · rfl
  · split
    · rename_i p _
      by_cases h : q = p
      · subst h; simp
      · simp [Function.update_noteq h]
    · rfl

@[simp]
theorem readPumpExit_mem (c : Client) (st : State) : (readPumpExit c st).mem = st.mem :=
  rfl

@[simp]
theorem readPumpExit_clients (c : Client) (st : State) :
    (readPumpExit c st).clients = st.clients := rfl

/-- Deleting a key that is absent leaves a Go map as it is. -/
theorem erase_of_not_mem {m : Finmap (fun _ : String => PlayerPtr)} {k : String}
    (h : k ∉ m) : m.erase k = m := by
  apply Finmap.ext_lookup
  intro x
  by_cases hx : x = k
  · subst hx
    rw [Finmap.lookup_erase, eq_comm, Finmap.lookup_eq_none]
    exact h
  · exact Finmap.lookup_erase_ne hx

/-- The cleanup of the read loop deletes the session's key, present or not. -/
@[simp]
theorem readPumpExit_Players (c : Client) (st : State) :
    (readPumpExit c st).Players = st.Players.erase (st.mem c.player).ID := by
  unfold readPumpExit
  by_cases h : (st.mem c.player).ID ∈ st.Players
  · simp [h]
  · simp [h, erase_of_not_mem h]

theorem step_mem_ID (st : State) (e : Event) (q : PlayerPtr) :
    ((step st e).mem q).ID = (st.mem q).ID := by
  cases e <;> simp [step, readPumpMessage_mem_ID]

theorem run_nil (st : State) : run [] st = st := rfl

theorem run_cons (e : Event) (es : List Event) (st : State) :
    run (e :: es) st = run es (step st e) := rfl

theorem run_append (es₁ es₂ : List Event) (st : State) :
    run (es₁ ++ es₂) st = run es₂ (run es₁ st) := by
  simp [run, List.foldl_append]

theorem run_mem_ID (es : List Event) (st : State) (q : PlayerPtr) :
    ((run es st).mem q).ID = (st.mem q).ID := by
  induction es generalizing st with
  | nil => rfl
  | cons e es ih => rw [run_cons, ih, step_mem_ID]

theorem run_playerID (es : List Event) (st : State) (c : Client) :
    (run es st).playerID c = st.playerID c :=
  run_mem_ID es st c.player

/-! ## The store invariant: each key is the ID of the object it points to -/

theorem newHub_keyed (mem : PlayerPtr → Player) : (newHub mem).Keyed := by
  intro k q h
  simp [newHub, Finmap.lookup_empty] at h

theorem step_keyed {st : State} (h : st.Keyed) (e : Event) : (step st e).Keyed := by
  intro k q hk
  rw [step_mem_ID]
  cases e with
  | register c =>
    simp only [step, register_Players] at hk
    by_cases hkc : k = (st.mem c.player).ID
    · subst hkc
      rw [Finmap.lookup_insert] at hk
      cases hk; rfl
    · rw [Finmap.lookup_insert_of_ne _ hkc] at hk
      exact h k q hk
  | unregister c =>
    simp only [step] at hk
    by_cases hc : c ∈ st.clients
    · rw [unregister_of_mem hc] at hk
      simp only at hk
      by_cases hkc : k = (st.mem c.player).ID
      · subst hkc
        rw [Finmap.lookup_erase] at hk
        cases hk
      · rw [Finmap.lookup_erase_ne hkc] at hk
        exact h k q hk
    · rw [unregister_of_not_mem hc] at hk
      exact h k q hk
  | broadcast m order w =>
    simp only [step, broadcast_Players] at hk
    exact h k q hk
  | readMessage c d =>
    simp only [step, readPumpMessage_Players] at hk
    exact h k q hk
  | readExit c =>
    simp only [step, readPumpExit_Players] at hk
    by_cases hkc : k = (st.mem c.player).ID
    · subst hkc
      rw [Finmap.lookup_erase] at hk
      cases hk
    · rw [Finmap.lookup_erase_ne hkc] at hk
      exact h k q hk

theorem run_keyed {st : State} (h : st.Keyed) (es : List Event) : (run es st).Keyed := by
  induction es generalizing st with
  | nil => exact h
  | cons e es ih => exact ih (step_keyed h e)

/-! ## Updates -/

theorem entry_readPumpMessage_of_ne {st : State} (h : st.Keyed) (c : Client) (m : Player)
    {k : String} (hk : k ≠ m.ID) :
    (readPumpMessage c (some m) st).entry k = st.entry k := by
  unfold State.entry
  rw [readPumpMessage_Players]
  cases hq : st.Players.lookup k with
  | none => rfl
  | some q =>
    simp only [Option.map_some']
    unfold readPumpMessage
    simp only
    split
    · rename_i p hp
      have hne : q ≠ p := by
        intro hqp
        apply hk
        rw [← h k q hq, hqp, h m.ID p hp]
      simp [Function.update_noteq hne]
    · rfl

theorem entry_readPumpMessage_self {st : State} (h : st.Keyed) (c : Client) (m : Player)
    (hm : m.ID ∈ st.Players) :
    (readPumpMessage c (some m) st).entry m.ID = some m := by
  obtain ⟨p, hp⟩ := Finmap.mem_iff.mp hm
  have hid := h m.ID p hp
  unfold State.entry
  rw [readPumpMessage_Players, hp]
  unfold readPumpMessage
  simp only [hp, Option.map_some', Function.update_same]
  rw [hid]

theorem readPumpMessage_of_not_mem (c : Client) (m : Player) (st : State)
    (hm : m.ID ∉ st.Players) : readPumpMessage c (some m) st = st := by
  have : st.Players.lookup m.ID = none := Finmap.lookup_eq_none.mpr hm
  unfold readPumpMessage
  simp only [this]

/-- C2, as amended: in every reachable state, whichever session's read loop
handles a well-formed message `m`, the only store entry that can differ
afterwards is the entry filed under `m`'s own id field: every entry whose key
is different from `m.ID` is unchanged. -/
theorem readPumpMessage_changes_only_message_id (mem : PlayerPtr → Player) (es : List Event)
    (c : Client) (m : Player) (k : String) (hk : k ≠ m.ID) :
    (readPumpMessage c (some m) (run es (newHub mem))).entry k =
      (run es (newHub mem)).entry k :=
  entry_readPumpMessage_of_ne (run_keyed (newHub_keyed mem) es) c m hk

/-- Witness of C2 as amended: `p1` and `p2` are registered, the session of `p1`
handles a message with id `p2`, and the entry of `p1` is unchanged. -/
theorem readPumpMessage_changes_only_message_id_witness :
    "p1" ≠ (Player.mk "p2" 10 20 5 0).ID ∧
    (readPumpMessage s1 (some (Player.mk "p2" 10 20 5 0))
        (run [.register s1, .register s2] (newHub mem0))).entry "p1" =
      (run [.register s1, .register s2] (newHub mem0)).entry "p1" :=
  ⟨by decide,
   readPumpMessage_changes_only_message_id mem0 [.register s1, .register s2] s1
     (Player.mk "p2" 10 20 5 0) "p1" (by decide)⟩

/-- C2 fails as stated: with `p1` and `p2` registered, the read loop of the
session of `p1` handles a well-formed message whose id field is `p2`; the entry
of `p2`, whose key is not the session's own player ID, is changed. -/
theorem readPumpMessage_changes_other_player :
    "p2" ≠ (run [.register s1, .register s2] (newHub mem0)).playerID s1 ∧
    (readPumpMessage s1 (some (Player.mk "p2" 10 20 5 0))
        (run [.register s1, .register s2] (newHub mem0))).entry "p2" ≠
      (run [.register s1, .register s2] (newHub mem0)).entry "p2" := by
  decide

/-- C5: in every reachable state whose store has an entry for `m.ID`, after the
read loop applies the update message `m = (id, x, y, velocity, angle)` the
store maps `id` to the player `{id, x, y, velocity, angle}`, the key set of the
store is unchanged, and every entry with another key is unchanged. -/
theorem readPumpMessage_overwrites_entry (mem : PlayerPtr → Player) (es : List Event)
    (c : Client) (m : Player) (hm : m.ID ∈ (run es (newHub mem)).keys) :
    (readPumpMessage c (some m) (run es (newHub mem))).entry m.ID = some m ∧
    (readPumpMessage c (some m) (run es (newHub mem))).keys = (run es (newHub mem)).keys ∧
    ∀ k, k ≠ m.ID →
      (readPumpMessage c (some m) (run es (newHub mem))).entry k =
        (run es (newHub mem)).entry k := by
  have hk := run_keyed (newHub_keyed mem) es
  refine ⟨entry_readPumpMessage_self hk c m (Finmap.mem_keys.mp hm), ?_, ?_⟩
  · simp [State.keys]
  · intro k hne
    exact entry_readPumpMessage_of_ne hk c m hne

/-- Witness of C5: after registering `p1` and applying
`{"id":"p1","x":10,"y":20,"velocity":5,"angle":1.57}`, the entry of `p1` is
`{id:"p1", x:10, y:20, velocity:5, angle:1.57}`. -/
theorem readPumpMessage_overwrites_entry_witness :
    "p1" ∈ (run [.register s1] (newHub mem0)).keys ∧
    (readPumpMessage s1 (some (Player.mk "p1" 10 20 5 (157 / 100)))
        (run [.register s1] (newHub mem0))).entry "p1" =
      some (Player.mk "p1" 10 20 5 (157 / 100)) :=
  ⟨by decide,
   (readPumpMessage_overwrites_entry mem0 [.register s1] s1
     (Player.mk "p1" 10 20 5 (157 / 100)) (by decide)).1⟩

/-- C6: for every store and every update message whose id is not a key of the
store, applying the update leaves the state exactly unchanged: no entry is
created (the number of entries is the same) and no entry is modified. -/
theorem readPumpMessage_unknown_id (st : State) (c : Client) (m : Player)
    (hm : m.ID ∉ st.keys) :
    readPumpMessage c (some m) st = st ∧
    (readPumpMessage c (some m) st).keys.card = st.keys.card ∧
    ∀ k, (readPumpMessage c (some m) st).entry k = st.entry k := by
  have h := readPumpMessage_of_not_mem c m st (fun hmem => hm (Finmap.mem_keys.mpr hmem))
  rw [h]
  exact ⟨rfl, rfl, fun _ => rfl⟩

/-- Witness of C6: only `p1` is registered and an update for `p2` arrives. -/
theorem readPumpMessage_unknown_id_witness :
    (Player.mk "p2" 10 20 5 0).ID ∉ (run [.register s1] (newHub mem0)).keys ∧
    readPumpMessage s1 (some (Player.mk "p2" 10 20 5 0)) (run [.register s1] (newHub mem0)) =
      run [.register s1] (newHub mem0) :=
  ⟨by decide,
   (readPumpMessage_unknown_id (run [.register s1] (newHub mem0)) s1
     (Player.mk "p2" 10 20 5 0) (by decide)).1⟩

/-! ## Deregistration and the cleanup of the read loop -/

/-- C9: for every state and every session `s` that is not in the active set,
handling an unregister event for `s` (a total function: nothing can fail)
leaves the whole state unchanged; consequently, in every state, handling
`unregister s` twice in a row gives the same state as handling it once. -/
theorem unregister_absent_noop (st : State) (s : Client) :
    (s ∉ st.clients → unregister s st = st) ∧
    unregister s (unregister s st) = unregister s st := by
  refine ⟨fun h => unregister_of_not_mem h, ?_⟩
  apply unregister_of_not_mem
  by_cases h : s ∈ st.clients
  · rw [unregister_of_mem h]
    simp
  · rw [unregister_of_not_mem h]
    exact h

/-- Witness of C9: only `p1` is registered and the session of `p2` is
unregistered. -/
theorem unregister_absent_noop_witness :
    s2 ∉ (run [.register s1] (newHub mem0)).clients ∧
    unregister s2 (run [.register s1] (newHub mem0)) = run [.register s1] (newHub mem0) :=
  ⟨by decide, (unregister_absent_noop (run [.register s1] (newHub mem0)) s2).1 (by decide)⟩

/-- C10: for every state and every session `s` in the active set, the cleanup of
the read loop followed by the hub's unregister handling yields the same store
(same map, same player objects) as the opposite order; in both orders the store
ends with no entry for `s.player.ID` and every other entry unchanged; and
whichever path runs second changes nothing in the store. -/
theorem removal_paths_idempotent (st : State) (s : Client) (hs : s ∈ st.clients) :
    (unregister s (readPumpExit s st)).Players = (readPumpExit s (unregister s st)).Players ∧
    (unregister s (readPumpExit s st)).mem = (readPumpExit s (unregister s st)).mem ∧
    st.playerID s ∉ (unregister s (readPumpExit s st)).keys ∧
    st.playerID s ∉ (readPumpExit s (unregister s st)).keys ∧
    (∀ k, k ≠ st.playerID s →
      (unregister s (readPumpExit s st)).entry k = st.entry k ∧
      (readPumpExit s (unregister s st)).entry k = st.entry k) ∧
    (unregister s (readPumpExit s st)).Players = (readPumpExit s st).Players ∧
    (unregister s (readPumpExit s st)).mem = (readPumpExit s st).mem ∧
    (readPumpExit s (unregister s st)).Players = (unregister s st).Players ∧
    (readPumpExit s (unregister s st)).mem = (unregister s st).mem := by
  have hs' : s ∈ (readPumpExit s st).clients := hs
  have e1 : (unregister s (readPumpExit s st)).Players =
      st.Players.erase (st.mem s.player).ID := by
    rw [unregister_of_mem hs']
    simp only [readPumpExit_Players, readPumpExit_mem]
    exact erase_of_not_mem Finmap.not_mem_erase_self
  have e2 : (readPumpExit s (unregister s st)).Players =
      st.Players.erase (st.mem s.player).ID := by
    rw [readPumpExit_Players, unregister_mem, unregister_of_mem hs]
    exact erase_of_not_mem Finmap.not_mem_erase_self
  have e3 : (unregister s st).Players = st.Players.erase (st.mem s.player).ID := by
    rw [unregister_of_mem hs]
  have m1 : (unregister s (readPumpExit s st)).mem = st.mem := by simp
  have m2 : (readPumpExit s (unregister s st)).mem = st.mem := by simp
  refine ⟨by rw [e1, e2], by rw [m1, m2], ?_, ?_, ?_, ?_, by simp, by rw [e2, e3], by simp⟩
  · rw [State.keys, e1, Finmap.mem_keys]
    exact Finmap.not_mem_erase_self
  · rw [State.keys, e2, Finmap.mem_keys]
    exact Finmap.not_mem_erase_self
  · intro k hk
    have hk' : k ≠ (st.mem s.player).ID := hk
    unfold State.entry
    rw [e1, e2, m1, m2, Finmap.lookup_erase_ne hk']
    exact ⟨rfl, rfl⟩
  · rw [e1, readPumpExit_Players]

/-- Witness of C10: `p1` and `p2` are registered and the two removal paths run
for the session of `p1`. -/
theorem removal_paths_idempotent_witness :
    s1 ∈ (run [.register s1, .register s2] (newHub mem0)).clients ∧
    (unregister s1 (readPumpExit s1 (run [.register s1, .register s2] (newHub mem0)))).Players =
      (readPumpExit s1 (unregister s1 (run [.register s1, .register s2] (newHub mem0)))).Players :=
  ⟨by decide,
   (removal_paths_idempotent (run [.register s1, .register s2] (newHub mem0)) s1
     (by decide)).1⟩

/-! ## Broadcast -/

theorem broadcast_writes (m : Message) (order : List Client) (w : Client → Bool) (st : State) :
    (broadcast m order w st).writes = st.writes ++ order.map (fun c => (c.conn, m, w c)) := by
  unfold broadcast
  induction order generalizing st with
  | nil => simp
  | cons c cs ih =>
    rw [List.foldl_cons, ih]
    by_cases hw : w c = true
    · simp [broadcastWrite, hw]
    · have hw' : w c = false := by simpa using hw
      simp [broadcastWrite, hw']

theorem broadcast_closed (m : Message) (order : List Client) (w : Client → Bool) (st : State) :
    (broadcast m order w st).closed =
      st.closed ∪ ((order.filter (fun c => w c = false)).map Client.conn).toFinset := by
  unfold broadcast
  induction order generalizing st with
  | nil => simp
  | cons c cs ih =>
    rw [List.foldl_cons, ih]
    by_cases hw : w c = true
    · simp [broadcastWrite, hw]
    · have hw' : w c = false := by simpa using hw
      simp only [broadcastWrite, hw', Bool.false_eq_true, if_false, decide_True,
        List.filter_cons_of_pos, List.map_cons, List.toFinset_cons]
      ext x
      simp only [Finset.mem_union, Finset.mem_insert]
      tauto

/-- C7: for every state, payload and assignment of write outcomes, when the
iteration `order` enumerates the active set (each session once), handling one
broadcast request attempts the write of the payload exactly once on every
session of the prior active set, in iteration order; the resulting active set
is exactly the prior sessions whose write succeeded; the store is untouched;
and another iteration order gives the same active set and the same closed
connections, with the same writes up to their order. -/
theorem broadcast_prunes_failed (st : State) (message : Message) (writeOk : Client → Bool)
    (order : List Client) (hnd : order.Nodup) (hord : ∀ c, c ∈ order ↔ c ∈ st.clients) :
    (broadcast message order writeOk st).writes =
      st.writes ++ order.map (fun c => (c.conn, message, writeOk c)) ∧
    (∀ c ∈ st.clients,
      (c.conn, message, writeOk c) ∈ (broadcast message order writeOk st).writes) ∧
    (broadcast message order writeOk st).clients =
      st.clients.filter (fun c => writeOk c = true) ∧
    (∀ c ∈ st.clients, writeOk c = true →
      c ∈ (broadcast message order writeOk st).clients ∧
      (c.conn, message, true) ∈ (broadcast message order writeOk st).writes) ∧
    (broadcast message order writeOk st).Players = st.Players ∧
    (broadcast message order writeOk st).mem = st.mem ∧
    ∀ order₂ : List Client, order₂.Nodup → (∀ c, c ∈ order₂ ↔ c ∈ st.clients) →
      (broadcast message order₂ writeOk st).clients =
        (broadcast message order writeOk st).clients ∧
      (broadcast message order₂ writeOk st).closed =
        (broadcast message order writeOk st).closed ∧
      ((broadcast message order₂ writeOk st).writes).Perm
        (broadcast message order writeOk st).writes := by
  have hw : ∀ c ∈ st.clients,
      (c.conn, message, writeOk c) ∈ (broadcast message order writeOk st).writes := by
    intro c hc
    rw [broadcast_writes]
    exact List.mem_append_right _ (List.mem_map.mpr ⟨c, (hord c).mpr hc, rfl⟩)
  have hcl : ∀ (o : List Client), (∀ c, c ∈ o ↔ c ∈ st.clients) →
      (broadcast message o writeOk st).clients =
        st.clients.filter (fun c => writeOk c = true) := by
    intro o ho
    rw [broadcast_clients]
    ext c
    simp only [Finset.mem_filter]
    constructor
    · rintro ⟨hc, hn⟩
      refine ⟨hc, ?_⟩
      cases h : writeOk c
      · exact absurd ⟨(ho c).mpr hc, h⟩ hn
      · rfl
    · rintro ⟨hc, h⟩
      refine ⟨hc, ?_⟩
      rintro ⟨_, h2⟩
      rw [h] at h2
      exact Bool.noConfusion h2
  refine ⟨broadcast_writes _ _ _ _, hw, hcl order hord, ?_, broadcast_Players _ _ _ _,
    broadcast_mem _ _ _ _, ?_⟩
  · intro c hc hok
    refine ⟨?_, ?_⟩
    · rw [hcl order hord]
      exact Finset.mem_filter.mpr ⟨hc, hok⟩
    · have := hw c hc
      rwa [hok] at this
  · intro order₂ hnd₂ hord₂
    have hperm : order₂.Perm order :=
      (List.perm_ext_iff_of_nodup hnd₂ hnd).mpr (fun c => by rw [hord₂, hord])
    refine ⟨by rw [hcl order₂ hord₂, hcl order hord], ?_, ?_⟩
    · rw [broadcast_closed, broadcast_closed]
      congr 1
      ext x
      simp only [List.mem_toFinset, List.mem_map, List.mem_filter]
      constructor
      · rintro ⟨c, ⟨hc, h⟩, rfl⟩
        exact ⟨c, ⟨hperm.mem_iff.mp hc, h⟩, rfl⟩
      · rintro ⟨c, ⟨hc, h⟩, rfl⟩
        exact ⟨c, ⟨hperm.mem_iff.mpr hc, h⟩, rfl⟩
    · rw [broadcast_writes, broadcast_writes]
      exact List.Perm.append_left _ (hperm.map _)

/-- Witness of C7: `p1` and `p2` are registered, the write to `p1` fails and
the write to `p2` succeeds; `p2` stays in the active set and gets the payload,
whether it is visited first or second. -/
theorem broadcast_prunes_failed_witness :
    [s1, s2].Nodup ∧
    (∀ c, c ∈ [s1, s2] ↔ c ∈ (run [.register s1, .register s2] (newHub mem0)).clients) ∧
    (broadcast [7] [s1, s2] (fun c => decide (c = s2))
        (run [.register s1, .register s2] (newHub mem0))).clients = {s2} ∧
    (s2.conn, [7], true) ∈ (broadcast [7] [s1, s2] (fun c => decide (c = s2))
        (run [.register s1, .register s2] (newHub mem0))).writes ∧
    (broadcast [7] [s2, s1] (fun c => decide (c = s2))
        (run [.register s1, .register s2] (newHub mem0))).clients = {s2} := by
  have hnd : [s1, s2].Nodup := by decide
  have hord : ∀ c, c ∈ [s1, s2] ↔
      c ∈ (run [.register s1, .register s2] (newHub mem0)).clients := by
    intro c
    simp [run, step, newHub, or_comm]
  have h := broadcast_prunes_failed (run [.register s1, .register s2] (newHub mem0)) [7]
    (fun c => decide (c = s2)) [s1, s2] hnd hord
  have hnd₂ : [s2, s1].Nodup := by decide
  have hord₂ : ∀ c, c ∈ [s2, s1] ↔
      c ∈ (run [.register s1, .register s2] (newHub mem0)).clients := by
    intro c
    simp [run, step, newHub]
  have hc : (broadcast [7] [s1, s2] (fun c => decide (c = s2))
      (run [.register s1, .register s2] (newHub mem0))).clients = {s2} := by decide
  refine ⟨hnd, hord, hc, ?_, ?_⟩
  · exact (h.2.2.2.1 s2 (by decide) (by decide)).2
  · rw [(h.2.2.2.2.2.2 [s2, s1] hnd₂ hord₂).1, hc]

/-! ## Registration -/

theorem readPumpMessage_mem_of_fresh {st : State} {a : PlayerPtr}
    (ha : ∀ k, st.Players.lookup k ≠ some a) (c : Client) (d : Option Player) :
    (readPumpMessage c d st).mem a = st.mem a := by
  cases d with
  | none => rfl
  | some m =>
    unfold readPumpMessage
    simp only
    split
    · rename_i p hp
      have hne : a ≠ p := by
        intro h
        exact ha m.ID (by rw [hp, h])
      simp [Function.update_noteq hne]
    · rfl

theorem run_readMessages_fresh (ms : List (Client × Option Player)) {st : State}
    {a : PlayerPtr} (ha : ∀ k, st.Players.lookup k ≠ some a) :
    (run (ms.map (fun x => Event.readMessage x.1 x.2)) st).mem a = st.mem a ∧
    (run (ms.map (fun x => Event.readMessage x.1 x.2)) st).Players = st.Players := by
  induction ms generalizing st with
  | nil => exact ⟨rfl, rfl⟩
  | cons x xs ih =>
    rw [List.map_cons, run_cons]
    have ha' : ∀ k, (step st (Event.readMessage x.1 x.2)).Players.lookup k ≠ some a := by
      intro k
      simp only [step, readPumpMessage_Players]
      exact ha k
    obtain ⟨h1, h2⟩ := ih ha'
    rw [h1, h2]
    exact ⟨readPumpMessage_mem_of_fresh ha x.1 x.2, readPumpMessage_Players x.1 x.2 st⟩

/-- C8: for every state and every player ID `p`, let a first session be created
with ID `p` and registered, let any events `es` follow (updates of the first
session's record among them), let a second session then be created with the
same ID `p`, its player a new object the store does not point to, and let any
update messages `ms` be handled before the hub registers the second session.
Then the store has exactly one entry with key `p`, it points to the second
session's player, and it holds the creation defaults
`id = p, x = 400, y = 300, velocity = 0, angle = 0`. -/
theorem register_same_id_twice (st : State) (p : String)
    (q₁ g₁ : String) (conn₁ : Conn) (a₁ : PlayerPtr)
    (q₂ g₂ : String) (conn₂ : Conn) (a₂ : PlayerPtr)
    (es : List Event) (ms : List (Client × Option Player))
    (h₁ : requestPlayerID q₁ g₁ = p) (h₂ : requestPlayerID q₂ g₂ = p)
    (hnew : ∀ k ∈ (run es (register (handleWebSocket q₁ g₁ conn₁ a₁ st).1
        (handleWebSocket q₁ g₁ conn₁ a₁ st).2)).keys,
      (run es (register (handleWebSocket q₁ g₁ conn₁ a₁ st).1
        (handleWebSocket q₁ g₁ conn₁ a₁ st).2)).Players.lookup k ≠ some a₂) :
    let first := handleWebSocket q₁ g₁ conn₁ a₁ st
    let mid := run es (register first.1 first.2)
    let second := handleWebSocket q₂ g₂ conn₂ a₂ mid
    let final := register second.1
      (run (ms.map (fun x => Event.readMessage x.1 x.2)) second.2)
    final.Players.lookup p = some second.1.player ∧
    final.entry p = some { ID := p, X := 400, Y := 300, Velocity := 0, Angle := 0 } ∧
    Multiset.count p final.Players.entries.keys = 1 := by
  intro first mid second final
  have hfresh : ∀ k, second.2.Players.lookup k ≠ some a₂ := by
    intro k hk
    have hk' : mid.Players.lookup k = some a₂ := hk
    exact hnew k (Finmap.mem_keys.mpr (Finmap.mem_of_lookup_eq_some hk')) hk'
  obtain ⟨hmem, hpl⟩ := run_readMessages_fresh ms hfresh
  have hobj : second.2.mem a₂ = newPlayer p := by
    show Function.update mid.mem a₂ (newPlayer (requestPlayerID q₂ g₂)) a₂ = newPlayer p
    rw [Function.update_same, h₂]
  have hP : final.Players =
      (run (ms.map (fun x => Event.readMessage x.1 x.2)) second.2).Players.insert p a₂ := by
    have hreg : final.Players =
        (run (ms.map (fun x => Event.readMessage x.1 x.2)) second.2).Players.insert
          ((run (ms.map (fun x => Event.readMessage x.1 x.2)) second.2).mem a₂).ID a₂ := rfl
    rw [hreg, hmem, hobj]
    rfl
  have hlook : final.Players.lookup p = some a₂ := by
    rw [hP, Finmap.lookup_insert]
  refine ⟨hlook, ?_, ?_⟩
  · unfold State.entry
    rw [hlook]
    show some (final.mem a₂) = _
    have : final.mem a₂ = newPlayer p := by
      show (run (ms.map (fun x => Event.readMessage x.1 x.2)) second.2).mem a₂ = _
      rw [hmem, hobj]
    rw [this]
    rfl
  · apply Multiset.count_eq_one_of_mem final.Players.nodupKeys.nodup_keys
    exact Finmap.mem_def.mp (Finmap.mem_of_lookup_eq_some hlook)

/-- Witness of C8: the session of `p1` is created and registered, its record is
updated to `(10, 20, 5, 0)`, then a second session is created with the same ID
at address 3 and registered: the entry of `p1` holds the defaults again. -/
theorem register_same_id_twice_witness :
    (run [.readMessage s1 (some (Player.mk "p1" 10 20 5 0))]
        (register (handleWebSocket "p1" "" 1 1 (newHub mem0)).1
          (handleWebSocket "p1" "" 1 1 (newHub mem0)).2)).entry "p1" =
      some { ID := "p1", X := 10, Y := 20, Velocity := 5, Angle := 0 } ∧
    (register (handleWebSocket "p1" "" 3 3
        (run [.readMessage s1 (some (Player.mk "p1" 10 20 5 0))]
          (register (handleWebSocket "p1" "" 1 1 (newHub mem0)).1
            (handleWebSocket "p1" "" 1 1 (newHub mem0)).2))).1
      (handleWebSocket "p1" "" 3 3
        (run [.readMessage s1 (some (Player.mk "p1" 10 20 5 0))]
          (register (handleWebSocket "p1" "" 1 1 (newHub mem0)).1
            (handleWebSocket "p1" "" 1 1 (newHub mem0)).2))).2).entry "p1" =
      some { ID := "p1", X := 400, Y := 300, Velocity := 0, Angle := 0 } :=
  ⟨by decide,
   (register_same_id_twice (newHub mem0) "p1" "p1" "" 1 1 "p1" "" 3 3
    [.readMessage s1 (some (Player.mk "p1" 10 20 5 0))] [] (by decide) (by decide)
    (by decide)).2.1⟩

/-! ## The store and the active set along a run -/

theorem step_playerID (st : State) (e : Event) : (step st e).playerID = st.playerID := by
  funext c
  exact step_mem_ID st e c.player

theorem registered_cons_subset (e : Event) (es : List Event) :
    (∀ c ∈ registered [e], c ∈ registered (e :: es)) ∧
    (∀ c ∈ registered es, c ∈ registered (e :: es)) := by
  cases e with
  | register c => exact ⟨by simp [registered], fun x hx => List.mem_cons_of_mem _ hx⟩
  | unregister c => exact ⟨by simp [registered], fun x hx => hx⟩
  | broadcast m order w => exact ⟨by simp [registered], fun x hx => hx⟩
  | readMessage c d => exact ⟨by simp [registered], fun x hx => hx⟩
  | readExit c => exact ⟨by simp [registered], fun x hx => hx⟩

/-- Only a registration puts a session into the active set, and it files the
session's key in the store. -/
theorem step_clients_new {st : State} {e : Event} {c : Client} (h0 : c ∉ st.clients)
    (h : c ∈ (step st e).clients) : st.playerID c ∈ (step st e).keys := by
  rw [State.keys, Finmap.mem_keys]
  cases e with
  | register c0 =>
    simp only [step, register_clients, Finset.mem_insert] at h
    simp only [step, register_Players, Finmap.mem_insert]
    rcases h with h | h
    · subst h; exact Or.inl rfl
    · exact absurd h h0
  | unregister c0 =>
    exfalso
    simp only [step] at h
    by_cases hc : c0 ∈ st.clients
    · rw [unregister_of_mem hc] at h
      exact h0 (Finset.mem_of_mem_erase h)
    · rw [unregister_of_not_mem hc] at h
      exact h0 h
  | broadcast m order w =>
    simp only [step, broadcast_clients, Finset.mem_filter] at h
    exact absurd h.1 h0
  | readMessage c0 d =>
    simp only [step, readPumpMessage_clients] at h
    exact absurd h h0
  | readExit c0 => exact absurd h h0

/-- A step that removes a session leaves it out of the active set. -/
theorem step_removes {st : State} {e : Event} {c : Client} (h : e.removes c = true) :
    c ∉ (step st e).clients := by
  cases e with
  | register c0 => simp [Event.removes] at h
  | unregister c0 =>
    simp only [Event.removes, decide_eq_true_eq] at h
    subst h
    simp only [step]
    by_cases hc : c0 ∈ st.clients
    · rw [unregister_of_mem hc]
      exact Finset.not_mem_erase _ _
    · rw [unregister_of_not_mem hc]
      exact hc
  | broadcast m order w =>
    simp only [Event.removes, Bool.and_eq_true, decide_eq_true_eq, Bool.not_eq_true'] at h
    simp only [step, broadcast_clients, Finset.mem_filter]
    exact fun hc => hc.2 h
  | readMessage c0 d => simp [Event.removes] at h
  | readExit c0 => simp [Event.removes] at h

/-- A registration under the ID `k` leaves `k` a key of the store and the ID of
an active session. -/
theorem step_registersID {mem : PlayerPtr → Player} {st : State} {e : Event} {k : String}
    (hid : ∀ q, (st.mem q).ID = (mem q).ID) (h : e.registersID mem k = true) :
    k ∈ (step st e).keys ∧ k ∈ (step st e).activeIDs := by
  cases e with
  | register c0 =>
    simp only [Event.registersID, decide_eq_true_eq] at h
    have hk : (st.mem c0.player).ID = k := by rw [hid, h]
    refine ⟨?_, ?_⟩
    · rw [State.keys, Finmap.mem_keys]
      simp only [step, register_Players, Finmap.mem_insert]
      exact Or.inl hk.symm
    · rw [State.activeIDs, step_playerID, Finset.mem_image]
      exact ⟨c0, by simp [step], hk⟩
  | unregister c0 => simp [Event.registersID] at h
  | broadcast m order w => simp [Event.registersID] at h
  | readMessage c0 d => simp [Event.registersID] at h
  | readExit c0 => simp [Event.registersID] at h

/-- Only a registration adds a key to the store, and it puts the session into
the active set. -/
theorem step_keys_new {st : State} {e : Event} {k : String} (h0 : k ∉ st.keys)
    (h : k ∈ (step st e).keys) : k ∈ (step st e).activeIDs := by
  rw [State.keys, Finmap.mem_keys] at h0 h
  rw [State.activeIDs, step_playerID, Finset.mem_image]
  cases e with
  | register c0 =>
    simp only [step, register_Players, Finmap.mem_insert] at h
    rcases h with h | h
    · exact ⟨c0, by simp [step], h.symm⟩
    · exact absurd h h0
  | unregister c0 =>
    exfalso
    simp only [step] at h
    by_cases hc : c0 ∈ st.clients
    · rw [unregister_of_mem hc] at h
      exact h0 (Finmap.mem_erase.mp h).2
    · rw [unregister_of_not_mem hc] at h
      exact h0 h
  | broadcast m order w =>
    simp only [step, broadcast_Players] at h
    exact absurd h h0
  | readMessage c0 d =>
    simp only [step, readPumpMessage_Players] at h
    exact absurd h h0
  | readExit c0 =>
    simp only [step, readPumpExit_Players] at h
    exact absurd (Finmap.mem_erase.mp h).2 h0

/-- The exit of a read loop of the ID `k` leaves `k` out of the store. -/
theorem step_exitsID {mem : PlayerPtr → Player} {st : State} {e : Event} {k : String}
    (hid : ∀ q, (st.mem q).ID = (mem q).ID) (h : e.exitsID mem k = true) :
    k ∉ (step st e).keys := by
  rw [State.keys, Finmap.mem_keys]
  cases e with
  | register c0 => simp [Event.exitsID] at h
  | unregister c0 => simp [Event.exitsID] at h
  | broadcast m order w => simp [Event.exitsID] at h
  | readMessage c0 d => simp [Event.exitsID] at h
  | readExit c0 =>
    simp only [Event.exitsID, decide_eq_true_eq] at h
    simp only [step, readPumpExit_Players]
    rw [hid, h]
    exact Finmap.not_mem_erase_self

/-- From any state: if every active session without a key is taken care of by
a later step, and so is every session that a step of the run leaves active
while deleting its key, then at the end every active session has its key. -/
theorem run_active_sub_keys (mem : PlayerPtr → Player) (es : List Event) :
    ∀ st : State, (∀ q, (st.mem q).ID = (mem q).ID) →
    (∀ c ∈ st.clients, (mem c.player).ID ∉ st.keys →
      ∃ e ∈ es, e.removes c = true ∨ e.registersID mem (mem c.player).ID = true) →
    (∀ i < es.length, ∀ c ∈ (run (es.take (i + 1)) st).clients,
      (mem c.player).ID ∈ (run (es.take i) st).keys →
      (mem c.player).ID ∉ (run (es.take (i + 1)) st).keys →
      ∃ e ∈ es.drop (i + 1),
        e.removes c = true ∨ e.registersID mem (mem c.player).ID = true) →
    ∀ c ∈ (run es st).clients, (mem c.player).ID ∈ (run es st).keys := by
  induction es with
  | nil =>
    intro st _ hP _ c hc
    by_contra hk
    obtain ⟨e, he, _⟩ := hP c hc hk
    cases he
  | cons e es ih =>
    intro st hid hP hH
    rw [run_cons]
    have hid' : ∀ q, ((step st e).mem q).ID = (mem q).ID := by
      intro q
      rw [step_mem_ID]
      exact hid q
    have hpid : ∀ c, st.playerID c = (mem c.player).ID := fun c => hid c.player
    apply ih (step st e) hid'
    · intro c hc hk
      by_cases hc0 : c ∈ st.clients
      · by_cases hk0 : (mem c.player).ID ∈ st.keys
        · exact hH 0 (Nat.succ_pos _) c hc hk0 hk
        · obtain ⟨e', he', h⟩ := hP c hc0 hk0
          rcases List.mem_cons.mp he' with heq | he'
          · exfalso
            subst heq
            rcases h with h | h
            · exact step_removes h hc
            · exact hk (step_registersID hid h).1
          · exact ⟨e', he', h⟩
      · have := step_clients_new hc0 hc
        rw [hpid] at this
        exact absurd this hk
    · intro i hi c hc hk0 hk
      exact hH (i + 1) (Nat.succ_lt_succ hi) c hc hk0 hk

/-- From any state: if every key without an active session is taken care of by
a later step, and so is every key that a step of the run leaves in the store
while removing its last active session, then at the end every key is the ID of
an active session. -/
theorem run_keys_sub_active (mem : PlayerPtr → Player) (es : List Event) :
    ∀ st : State, (∀ q, (st.mem q).ID = (mem q).ID) →
    (∀ k ∈ st.keys, k ∉ st.activeIDs →
      ∃ e ∈ es, e.exitsID mem k = true ∨ e.registersID mem k = true) →
    (∀ i < es.length, ∀ k ∈ (run (es.take (i + 1)) st).keys,
      k ∈ (run (es.take i) st).activeIDs →
      k ∉ (run (es.take (i + 1)) st).activeIDs →
      ∃ e ∈ es.drop (i + 1), e.exitsID mem k = true ∨ e.registersID mem k = true) →
    ∀ k ∈ (run es st).keys, k ∈ (run es st).activeIDs := by
  induction es with
  | nil =>
    intro st _ hP _ k hk
    by_contra ha
    obtain ⟨e, he, _⟩ := hP k hk ha
    cases he
  | cons e es ih =>
    intro st hid hP hH
    rw [run_cons]
    have hid' : ∀ q, ((step st e).mem q).ID = (mem q).ID := by
      intro q
      rw [step_mem_ID]
      exact hid q
    apply ih (step st e) hid'
    · intro k hk ha
      by_cases hk0 : k ∈ st.keys
      · by_cases ha0 : k ∈ st.activeIDs
        · exact hH 0 (Nat.succ_pos _) k hk ha0 ha
        · obtain ⟨e', he', h⟩ := hP k hk0 ha0
          rcases List.mem_cons.mp he' with heq | he'
          · exfalso
            subst heq
            rcases h with h | h
            · exact step_exitsID hid h hk
            · exact ha (step_registersID hid h).2
          · exact ⟨e', he', h⟩
      · exact absurd (step_keys_new hk0 hk) ha
    · intro i hi k hk ha0 ha
      exact hH (i + 1) (Nat.succ_lt_succ hi) k hk ha0 ha

theorem step_not_mem_keys {st : State} {p : String} (h : p ∉ st.Players) (e : Event)
    (he : ∀ c ∈ registered [e], st.playerID c ≠ p) : p ∉ (step st e).Players := by
  cases e with
  | register c =>
    simp only [step, register_Players, Finmap.mem_insert, not_or]
    exact ⟨fun heq => he c (by simp [registered]) heq.symm, h⟩
  | unregister c =>
    simp only [step]
    by_cases hc : c ∈ st.clients
    · rw [unregister_of_mem hc]
      exact fun hm => h (Finmap.mem_erase.mp hm).2
    · rw [unregister_of_not_mem hc]
      exact h
  | broadcast m order w => simpa only [step, broadcast_Players] using h
  | readMessage c d => simpa only [step, readPumpMessage_Players] using h
  | readExit c =>
    simp only [step, readPumpExit_Players]
    exact fun hm => h (Finmap.mem_erase.mp hm).2

theorem run_not_mem_keys (es : List Event) {st : State} {p : String} (h : p ∉ st.Players)
    (hes : ∀ c ∈ registered es, st.playerID c ≠ p) : p ∉ (run es st).Players := by
  induction es generalizing st with
  | nil => exact h
  | cons e es ih =>
    rw [run_cons]
    apply ih (step_not_mem_keys h e
      (fun c hc => hes c ((registered_cons_subset e es).1 c hc)))
    rw [step_playerID]
    exact fun c hc => hes c ((registered_cons_subset e es).2 c hc)

/-- A session stays in the active set along steps that do not remove it. -/
theorem run_clients_of_not_removes (es : List Event) {st : State} {c : Client}
    (hc : c ∈ st.clients) (hes : ∀ e ∈ es, e.removes c = false) :
    c ∈ (run es st).clients := by
  induction es generalizing st with
  | nil => exact hc
  | cons e es ih =>
    rw [run_cons]
    refine ih ?_ (fun e' he' => hes e' (List.mem_cons_of_mem _ he'))
    have he := hes e (List.mem_cons_self _ _)
    cases e with
    | register c0 => simp [step, hc]
    | unregister c0 =>
      have hne : c ≠ c0 := by
        intro h
        simp [Event.removes, h] at he
      simp only [step]
      by_cases h0 : c0 ∈ st.clients
      · rw [unregister_of_mem h0]
        exact Finset.mem_erase.mpr ⟨hne, hc⟩
      · rw [unregister_of_not_mem h0]
        exact hc
    | broadcast m order w =>
      simp only [step, broadcast_clients, Finset.mem_filter]
      refine ⟨hc, ?_⟩
      rintro ⟨h1, h2⟩
      simp [Event.removes, h1, h2] at he
    | readMessage c0 d => simpa [step] using hc
    | readExit c0 => exact hc

theorem registered_of_not_registersID (mem : PlayerPtr → Player) (k : String)
    (es : List Event) (hes : ∀ e ∈ es, e.registersID mem k = false) :
    ∀ c ∈ registered es, (mem c.player).ID ≠ k := by
  induction es with
  | nil => intro c hc; simp [registered] at hc
  | cons e es ih =>
    have ih' := ih (fun e' he' => hes e' (List.mem_cons_of_mem _ he'))
    have he := hes e (List.mem_cons_self _ _)
    cases e with
    | register c0 =>
      intro c hc
      simp only [registered, List.mem_cons] at hc
      rcases hc with rfl | hc
      · simpa [Event.registersID] using he
      · exact ih' c hc
    | unregister c0 => exact ih'
    | broadcast m order w => exact ih'
    | readMessage c0 d => exact ih'
    | readExit c0 => exact ih'

/-- A key without an active session stays so along steps that neither exit a
read loop of its ID nor register a session with its ID. -/
theorem run_orphan_key (mem : PlayerPtr → Player) (k : String) (es : List Event) {st : State}
    (hid : ∀ q, (st.mem q).ID = (mem q).ID) (hk : k ∈ st.keys) (ha : k ∉ st.activeIDs)
    (hes : ∀ e ∈ es, e.exitsID mem k = false ∧ e.registersID mem k = false) :
    k ∈ (run es st).keys ∧ k ∉ (run es st).activeIDs := by
  induction es generalizing st with
  | nil => exact ⟨hk, ha⟩
  | cons e es ih =>
    rw [run_cons]
    have hid' : ∀ q, ((step st e).mem q).ID = (mem q).ID := by
      intro q
      rw [step_mem_ID]
      exact hid q
    have he := hes e (List.mem_cons_self _ _)
    have hno : ∀ c ∈ st.clients, (st.mem c.player).ID ≠ k := by
      intro c hc h
      exact ha (Finset.mem_image.mpr ⟨c, hc, h⟩)
    have hstep : k ∈ (step st e).keys ∧ k ∉ (step st e).activeIDs := by
      rw [State.keys, Finmap.mem_keys] at hk ⊢
      rw [State.activeIDs, step_playerID, Finset.mem_image]
      cases e with
      | register c0 =>
        have hne : (st.mem c0.player).ID ≠ k := by
          rw [hid]
          simpa [Event.registersID] using he.2
        refine ⟨by simp [step, hk], ?_⟩
        rintro ⟨c, hc, h⟩
        simp only [step, register_clients, Finset.mem_insert] at hc
        rcases hc with rfl | hc
        · exact hne h
        · exact hno c hc h
      | unregister c0 =>
        simp only [step]
        by_cases h0 : c0 ∈ st.clients
        · rw [unregister_of_mem h0]
          refine ⟨Finmap.mem_erase.mpr ⟨fun h => hno c0 h0 h.symm, hk⟩, ?_⟩
          rintro ⟨c, hc, h⟩
          exact hno c (Finset.mem_of_mem_erase hc) h
        · rw [unregister_of_not_mem h0]
          exact ⟨hk, fun ⟨c, hc, h⟩ => hno c hc h⟩
      | broadcast m order w =>
        refine ⟨by simpa [step] using hk, ?_⟩
        rintro ⟨c, hc, h⟩
        simp only [step, broadcast_clients, Finset.mem_filter] at hc
        exact hno c hc.1 h
      | readMessage c0 d =>
        refine ⟨by simpa [step] using hk, ?_⟩
        rintro ⟨c, hc, h⟩
        simp only [step, readPumpMessage_clients] at hc
        exact hno c hc h
      | readExit c0 =>
        have hne : (st.mem c0.player).ID ≠ k := by
          rw [hid]
          simpa [Event.exitsID] using he.1
        refine ⟨?_, fun ⟨c, hc, h⟩ => hno c hc h⟩
        simp only [step, readPumpExit_Players]
        exact Finmap.mem_erase.mpr ⟨fun h => hne h.symm, hk⟩
    exact ih hid' hstep.1 hstep.2 (fun e' he' => hes e' (List.mem_cons_of_mem _ he'))

/-- A failed broadcast write prunes the session from the active set and leaves
its key in the store: condition (1) of the amended invariant is needed. -/
theorem keys_not_subset_after_failed_write :
    (run [.register s1, .broadcast [7] [s1] (fun _ => false)] (newHub mem0)).clients = ∅ ∧
    (run [.register s1, .broadcast [7] [s1] (fun _ => false)] (newHub mem0)).keys = {"p1"} := by
  decide

/-- Two sessions with the same player ID share one key, and unregistering the
first deletes it while the second is still active: the distinctness in
condition (2) of the amended invariant is needed. -/
theorem activeIDs_not_subset_same_id :
    (run [.register s1, .register s3, .unregister s1] (newHub mem0)).clients = {s3} ∧
    (run [.register s1, .register s3, .unregister s1] (newHub mem0)).activeIDs = {"p1"} ∧
    (run [.register s1, .register s3, .unregister s1] (newHub mem0)).keys = ∅ := by
  decide

/-- C3 fails as stated: register the session of `p1`, unregister it, register
a second session with the ID `p1`, unregister the first session again.  The
sequence ends with an unregister event for a session whose player ID is `p1`,
no register event follows it, and the store still has the entry for `p1`: the
session was no longer in the active set, so the event was ignored. -/
theorem unregister_of_absent_session_keeps_id :
    (mem0 s1.player).ID = "p1" ∧
    (∀ c ∈ registered ([] : List Event), (mem0 c.player).ID ≠ "p1") ∧
    "p1" ∈ (run ([.register s1, .unregister s1, .register s3] ++ Event.unregister s1 :: [])
      (newHub mem0)).keys := by
  decide

/-- C3, as amended: for every sequence of steps from the empty hub and every
player ID `p`, if the sequence contains an unregister event for a session with
player ID `p` that is in the active set when the event is handled, and no
register event for a session with ID `p` occurs after it, then the resulting
store has no entry for `p`. -/
theorem unregistered_id_absent (mem : PlayerPtr → Player) (pre post : List Event)
    (s : Client) (p : String)
    (hs : s ∈ (run pre (newHub mem)).clients) (hp : (mem s.player).ID = p)
    (hpost : ∀ c ∈ registered post, (mem c.player).ID ≠ p) :
    p ∉ (run (pre ++ Event.unregister s :: post) (newHub mem)).keys := by
  rw [State.keys, Finmap.mem_keys, run_append, run_cons]
  have hid : ∀ c, (step (run pre (newHub mem)) (Event.unregister s)).playerID c =
      (mem c.player).ID := by
    intro c
    rw [step_playerID, run_playerID]
    rfl
  apply run_not_mem_keys
  · simp only [step]
    rw [unregister_of_mem hs]
    have : ((run pre (newHub mem)).mem s.player).ID = p := by
      rw [run_mem_ID]
      exact hp
    simp only [this]
    exact Finmap.not_mem_erase_self
  · intro c hc
    rw [hid]
    exact hpost c hc

/-- Witness of C3 as amended: `p1` and `p2` are registered, `p1` is updated,
the session of `p1` is unregistered while active, then `p2` is updated. -/
theorem unregistered_id_absent_witness :
    s1 ∈ (run [.register s1, .register s2] (newHub mem0)).clients ∧
    (mem0 s1.player).ID = "p1" ∧
    (∀ c ∈ registered [.readMessage s2 (some (Player.mk "p2" 1 2 3 4))],
      (mem0 c.player).ID ≠ "p1") ∧
    "p1" ∉ (run ([.register s1, .register s2] ++ Event.unregister s1 ::
      [.readMessage s2 (some (Player.mk "p2" 1 2 3 4))]) (newHub mem0)).keys :=
  ⟨by decide, by decide, by decide,
   unregistered_id_absent mem0 [.register s1, .register s2]
     [.readMessage s2 (some (Player.mk "p2" 1 2 3 4))] s1 "p1"
     (by decide) (by decide) (by decide)⟩

/-! ## The tick -/

@[simp]
theorem readPumpMessage_writes (c : Client) (d : Option Player) (st : State) :
    (readPumpMessage c d st).writes = st.writes := by
  unfold readPumpMessage
  split
  · rfl
  · split <;> rfl

/-- Along every run from `newHub` the broadcast channel keeps capacity 0 and an
empty buffer, and no write has been made. -/
theorem runLoop_unbuffered (mem : PlayerPtr → Player) (es : List LoopEvent) :
    (Hub.runLoop es (newHubLoop mem)).broadcast.cap = 0 ∧
    (Hub.runLoop es (newHubLoop mem)).broadcast.buf = [] ∧
    (Hub.runLoop es (newHubLoop mem)).st.writes = [] := by
  suffices h : ∀ L : HubLoop,
      (L.broadcast.cap = 0 ∧ L.broadcast.buf = [] ∧ L.st.writes = []) →
      ((Hub.runLoop es L).broadcast.cap = 0 ∧ (Hub.runLoop es L).broadcast.buf = [] ∧
        (Hub.runLoop es L).st.writes = []) from h _ ⟨rfl, rfl, rfl⟩
  induction es with
  | nil => exact fun L h => h
  | cons e es ih =>
    intro L hL
    apply ih
    obtain ⟨h1, h2, h3⟩ := hL
    cases e with
    | register c =>
      unfold Hub.run
      cases L.sending <;> exact ⟨h1, h2, h3⟩
    | unregister c =>
      unfold Hub.run
      cases L.sending with
      | some _ => exact ⟨h1, h2, h3⟩
      | none =>
        refine ⟨h1, h2, ?_⟩
        show (unregister c L.st).writes = []
        unfold unregister
        split <;> exact h3
    | broadcast order w =>
      unfold Hub.run
      cases L.sending with
      | some _ => exact ⟨h1, h2, h3⟩
      | none => simp [h1, h2, h3]
    | tick marshal =>
      unfold Hub.run
      cases L.sending with
      | some _ => exact ⟨h1, h2, h3⟩
      | none =>
        cases marshal with
        | none => exact ⟨h1, h2, h3⟩
        | some state => simp [h1, h2, h3]
    | readMessage c d => exact ⟨h1, h2, by simpa [Hub.run] using h3⟩
    | readExit c => exact ⟨h1, h2, h3⟩

/-- Once the hub goroutine is suspended in the send, no step resumes it or
touches the active set. -/
theorem runLoop_suspended (es : List LoopEvent) (L : HubLoop) (state : Message)
    (h : L.sending = some state) :
    (Hub.runLoop es L).sending = some state ∧
    (Hub.runLoop es L).st.clients = L.st.clients := by
  induction es generalizing L with
  | nil => exact ⟨h, rfl⟩
  | cons e es ih =>
    have hstep : (Hub.run L e).sending = some state ∧ (Hub.run L e).st.clients = L.st.clients := by
      cases e with
      | register c => simp [Hub.run, h]
      | unregister c => simp [Hub.run, h]
      | broadcast order w => simp [Hub.run, h]
      | tick marshal => simp [Hub.run, h]
      | readMessage c d => exact ⟨h, by simp [Hub.run]⟩
      | readExit c => exact ⟨h, rfl⟩
    obtain ⟨h1, h2⟩ := ih (Hub.run L e) hstep.1
    exact ⟨h1, h2.trans hstep.2⟩

/-- With room in the buffer of the channel, the tick does what it is meant to:
the payload is enqueued, the goroutine is back at the `select`, and the
broadcast case then writes the payload to the sessions of the active set. -/
theorem tick_then_broadcast_with_buffer (L : HubLoop) (state : Message)
    (order : List Client) (writeOk : Client → Bool)
    (hs : L.sending = none) (hbuf : L.broadcast.buf = []) (hcap : 0 < L.broadcast.cap) :
    (Hub.runLoop [.tick (some state), .broadcast order writeOk] L).sending = none ∧
    (Hub.runLoop [.tick (some state), .broadcast order writeOk] L).st =
      broadcast state order writeOk L.st := by
  simp [Hub.runLoop, Hub.run, hs, hbuf, hcap]

/-- C4 fails on the code: from `newHub`, after any events, a tick whose
serialization succeeds leaves the hub goroutine suspended in the send on its
own unbuffered channel.  Whatever happens next it stays suspended, the
broadcast request is never received (the buffer stays empty), the payload is
written to no session (the write log stays empty), and no later registration
is handled (the active set never changes again). -/
theorem tick_blocks_hub_loop (mem : PlayerPtr → Player) (es es' : List LoopEvent)
    (state : Message) :
    (Hub.runLoop es' (Hub.run (Hub.runLoop es (newHubLoop mem)) (.tick (some state)))).sending
      ≠ none ∧
    (Hub.runLoop es' (Hub.run (Hub.runLoop es (newHubLoop mem))
      (.tick (some state)))).broadcast.buf = [] ∧
    (Hub.runLoop es' (Hub.run (Hub.runLoop es (newHubLoop mem))
      (.tick (some state)))).st.writes = [] ∧
    (Hub.runLoop es' (Hub.run (Hub.runLoop es (newHubLoop mem))
      (.tick (some state)))).st.clients = (Hub.runLoop es (newHubLoop mem)).st.clients := by
  have hrun : Hub.runLoop es' (Hub.run (Hub.runLoop es (newHubLoop mem)) (.tick (some state))) =
      Hub.runLoop (es ++ LoopEvent.tick (some state) :: es') (newHubLoop mem) := by
    simp [Hub.runLoop, List.foldl_append]
  obtain ⟨h1, h2, -⟩ := runLoop_unbuffered mem es
  have hs : ∃ m, (Hub.run (Hub.runLoop es (newHubLoop mem)) (.tick (some state))).sending =
        some m ∧
      (Hub.run (Hub.runLoop es (newHubLoop mem)) (.tick (some state))).st.clients =
        (Hub.runLoop es (newHubLoop mem)).st.clients := by
    unfold Hub.run
    cases hsd : (Hub.runLoop es (newHubLoop mem)).sending with
    | some m => exact ⟨m, hsd, rfl⟩
    | none =>
      simp [h1, h2]
  obtain ⟨m, hm, hc⟩ := hs
  obtain ⟨k1, k2⟩ := runLoop_suspended es' _ m hm
  refine ⟨by rw [k1]; exact Option.some_ne_none m, ?_, ?_, k2.trans hc⟩
  · rw [hrun]; exact (runLoop_unbuffered mem _).2.1
  · rw [hrun]; exact (runLoop_unbuffered mem _).2.2

end CivilGame
